import Mathlib

/-!
Verification of the denormalized-reference consistency engine of the
beyond-ys-editor repository: the game edit workflow
(`src/pages/edit-game/index.tsx`, `handleSave`), the staff music cache
rebuild (`src/pages/rebuild-staff-music-cache/index.tsx`, `handleSave`),
and the invalidation notifier (`revalidatePaths` in `src/utils`).

Firestore documents are modelled as association lists keyed by strings,
write batches as explicit patch lists, and the store's commit as an
all-or-nothing fold returning `Option`.
-/

set_option autoImplicit false

namespace BeyondYs

/-! ## Association-list primitives (model of Firestore map fields) -/

/-- First-match lookup in an association list, the model of reading a
map field (or a document of a collection) by key. -/
def assocLookup {α : Type} (m : List (String × α)) (k : String) : Option α :=
  match m with
  | [] => none
  | kv :: rest => if kv.1 == k then some kv.2 else assocLookup rest k

/-- Removing a key from a map field: the model of Firestore `deleteField()`
applied at that key. -/
def assocErase {α : Type} (m : List (String × α)) (k : String) : List (String × α) :=
  match m with
  | [] => []
  | kv :: rest => if kv.1 == k then assocErase rest k else kv :: assocErase rest k

theorem assocErase_eq_filter {α : Type} (m : List (String × α)) (k : String) :
    assocErase m k = m.filter (fun kv => kv.1 != k) := by
  induction m with
  | nil => rfl
  | cons kv rest ih =>
    by_cases h : kv.1 = k <;> simp [assocErase, List.filter_cons, h, ih, bne]

/-- Setting a key in a map field (last write wins). -/
def assocSet {α : Type} (m : List (String × α)) (k : String) (v : α) : List (String × α) :=
  assocErase m k ++ [(k, v)]

theorem assocLookup_nil {α : Type} (k : String) : assocLookup ([] : List (String × α)) k = none := rfl

theorem assocLookup_append {α : Type} (m₁ m₂ : List (String × α)) (k : String) :
    assocLookup (m₁ ++ m₂) k =
      match assocLookup m₁ k with
      | some v => some v
      | none => assocLookup m₂ k := by
  induction m₁ with
  | nil => simp [assocLookup]
  | cons kv rest ih =>
    by_cases h : kv.1 == k <;> simp [assocLookup, h, ih]

theorem assocLookup_erase {α : Type} (m : List (String × α)) (k k' : String) :
    assocLookup (assocErase m k) k' = if k' = k then none else assocLookup m k' := by
  induction m with
  | nil => simp [assocErase, assocLookup]
  | cons kv rest ih =>
    by_cases h1 : kv.1 = k <;> by_cases h2 : k' = k <;>
      simp_all [assocErase, assocLookup]
    rw [if_neg (fun h => h2 (Eq.symm h))]

theorem assocLookup_set {α : Type} (m : List (String × α)) (k k' : String) (v : α) :
    assocLookup (assocSet m k v) k' = if k' = k then some v else assocLookup m k' := by
  unfold assocSet
  rw [assocLookup_append]
  by_cases h : k' = k
  · simp [h, assocLookup_erase, assocLookup]
  · have hne : (k == k') = false := by
      simp only [beq_eq_false_iff_ne, ne_eq]
      exact fun hh => h hh.symm
    simp only [assocLookup_erase, if_neg h, assocLookup, hne, Bool.false_eq_true, if_false]
    cases assocLookup m k' <;> rfl

/-! ## Chunked query executor

Both `handleSave` functions split an id list into chunks of at most 30
with the same `reduce` seeded by `[[]]`:

    const chunks = ids.reduce((acc, curr) => {
      const last = acc[acc.length - 1]!;
      if (last.length < 30) { last.push(curr); } else { acc.push([curr]); }
      return acc;
    }, [[]]);

and then issue one `'in'` query (`getDocs`) per chunk.
-/

/-- One step of the chunking `reduce`: append to the last chunk when it
holds fewer than 30 ids, otherwise start a new chunk. -/
def chunkStep (acc : List (List String)) (curr : String) : List (List String) :=
  let last := acc.getLastD []
  if last.length < 30 then acc.dropLast ++ [last ++ [curr]]
  else acc ++ [[curr]]

/-- The chunking `reduce`, seeded with one empty chunk exactly as in the
source (`[[]]`). -/
def chunkIds (ids : List String) : List (List String) :=
  ids.foldl chunkStep [[]]

/-- Structural recursion equivalent of the fold, used for proofs. -/
def chunkFrom (cur : List String) : List String → List (List String)
  | [] => [cur]
  | x :: xs => if cur.length < 30 then chunkFrom (cur ++ [x]) xs else cur :: chunkFrom [x] xs

theorem foldl_chunkStep_eq (xs : List String) :
    ∀ (full : List (List String)) (cur : List String),
      xs.foldl chunkStep (full ++ [cur]) = full ++ chunkFrom cur xs := by
  induction xs with
  | nil => intro full cur; simp [chunkFrom]
  | cons x xs ih =>
    intro full cur
    simp only [List.foldl_cons, chunkStep, chunkFrom]
    have hlast : (full ++ [cur]).getLastD [] = cur := by
      simp [List.getLastD_eq_getLast?, List.getLast?_append]
    have hdrop : (full ++ [cur]).dropLast = full := by
      simp
    by_cases h : cur.length < 30
    · simp only [hlast, hdrop, h, if_true, ih]
    · simp only [hlast, h, if_false, List.append_assoc]
      have := ih (full ++ [cur]) [x]
      simpa using this

theorem chunkIds_eq_chunkFrom (ids : List String) : chunkIds ids = chunkFrom [] ids := by
  have := foldl_chunkStep_eq ids [] []
  simpa [chunkIds] using this

theorem chunkFrom_length (xs : List String) :
    ∀ (cur : List String), cur.length ≤ 30 →
      (chunkFrom cur xs).length = max 1 ((cur.length + xs.length + 29) / 30) := by
  induction xs with
  | nil =>
    intro cur h
    simp only [chunkFrom, List.length_cons, List.length_nil]
    omega
  | cons x xs ih =>
    intro cur h
    simp only [chunkFrom]
    by_cases hc : cur.length < 30
    · rw [if_pos hc]
      have := ih (cur ++ [x]) (by simp only [List.length_append, List.length_cons, List.length_nil]; omega)
      rw [this]
      simp only [List.length_append, List.length_cons, List.length_nil]
      omega
    · rw [if_neg hc]
      have hcur : cur.length = 30 := by omega
      have := ih [x] (by simp)
      simp only [List.length_cons, List.length_nil] at this ⊢
      rw [this, hcur]
      omega

theorem chunkIds_length (ids : List String) :
    (chunkIds ids).length = max 1 ((ids.length + 29) / 30) := by
  rw [chunkIds_eq_chunkFrom]
  have := chunkFrom_length ids [] (by simp)
  simpa using this

theorem chunkFrom_flatten (xs : List String) :
    ∀ (cur : List String), (chunkFrom cur xs).flatten = cur ++ xs := by
  induction xs with
  | nil => intro cur; simp [chunkFrom]
  | cons x xs ih =>
    intro cur
    simp only [chunkFrom]
    by_cases hc : cur.length < 30
    · rw [if_pos hc, ih]
      simp
    · rw [if_neg hc]
      simp [List.flatten, ih]

theorem chunkIds_flatten (ids : List String) : (chunkIds ids).flatten = ids := by
  rw [chunkIds_eq_chunkFrom]
  simpa using chunkFrom_flatten ids []

/-! ## Staff music cache rebuild
(`src/pages/rebuild-staff-music-cache/index.tsx`, `handleSave`)
-/

/-- A music track document (`musicCollection`); `docSnap.data()` of a music
doc is what gets embedded into caches. -/
structure MusicDoc where
  title : String
  albumId : String
  dependentGameIds : List String
deriving DecidableEq, Repr

/-- The music collection, keyed by document id. -/
abbrev MusicStore := List (String × MusicDoc)

/-- A staff info document (`staffInfosCollection`): the authoritative
`musicIds` reference list, the denormalized `cachedMusic` map, and other
fields untouched by the rebuild. -/
structure StaffDoc where
  name : String
  description : String
  musicIds : List String
  cachedMusic : List (String × MusicDoc)
  updatedAt : Nat
deriving DecidableEq, Repr

/-- One Firestore `'in'` query on `documentId()` over one chunk: the
documents of the store whose id belongs to the chunk.  A missing id is
simply absent from the result (no error). -/
def queryIn (store : MusicStore) (chunk : List String) : List (String × MusicDoc) :=
  store.filter (fun kv => chunk.contains kv.1)

/-- The `newCachedMusic` accumulator of `handleSave`: every document
returned by the chunk queries, keyed for `cachedMusic.<id>` assignment. -/
def newCachedMusic (store : MusicStore) (musicIds : List String) : List (String × MusicDoc) :=
  ((chunkIds musicIds).map (queryIn store)).flatten

/-- One key/value entry of the single `updateDoc` payload built by the
rebuild: `cachedMusic.<id>: deleteField()`, `cachedMusic.<id>: <doc data>`,
or `updatedAt: serverTimestamp()`. -/
inductive StaffUpdateEntry where
  | delCached (musicId : String)
  | setCached (musicId : String) (v : MusicDoc)
  | stamp
deriving DecidableEq, Repr

/-- The dotted field path each update entry is keyed by. -/
inductive StaffFieldKey where
  | cachedMusicKey (musicId : String)
  | updatedAtKey
deriving DecidableEq, Repr

def entryKey : StaffUpdateEntry → StaffFieldKey
  | .delCached m => .cachedMusicKey m
  | .setCached m _ => .cachedMusicKey m
  | .stamp => .updatedAtKey

/-- The full `updateDoc` payload of the rebuild, in spread order: a
`deleteField()` for `cachedMusic.<id>` of every id in `musicIds`, then the
resolved documents (overriding the deletes key-by-key as object spread
does), then the `updatedAt` stamp. -/
def rebuildPayload (store : MusicStore) (musicIds : List String) : List StaffUpdateEntry :=
  musicIds.map StaffUpdateEntry.delCached
    ++ (newCachedMusic store musicIds).map (fun kv => StaffUpdateEntry.setCached kv.1 kv.2)
    ++ [StaffUpdateEntry.stamp]

/-- Effect of one payload entry on the staff document (`t` is the
server-assigned commit time). -/
def applyEntry (t : Nat) (s : StaffDoc) : StaffUpdateEntry → StaffDoc
  | .delCached m => { s with cachedMusic := assocErase s.cachedMusic m }
  | .setCached m v => { s with cachedMusic := assocSet s.cachedMusic m v }
  | .stamp => { s with updatedAt := t }

/-- Applying a whole update payload (later entries override earlier ones,
as for Javascript object keys). -/
def applyUpdate (t : Nat) (s : StaffDoc) (es : List StaffUpdateEntry) : StaffDoc :=
  es.foldl (applyEntry t) s

/-- The staff document after the rebuild's single `updateDoc`. -/
def rebuildStaff (t : Nat) (store : MusicStore) (s : StaffDoc) : StaffDoc :=
  applyUpdate t s (rebuildPayload store s.musicIds)

/-- The whole `handleSave` of the rebuild page, at the level of the staff
collection: fails when the staff document does not exist, otherwise
writes the rebuilt document back (the only write it performs). -/
def rebuildRun (t : Nat) (store : MusicStore) (staffStore : List (String × StaffDoc))
    (staffId : String) : Except String (List (String × StaffDoc)) :=
  match assocLookup staffStore staffId with
  | none => .error "Staff info does not exist."
  | some s => .ok (assocSet staffStore staffId (rebuildStaff t store s))

/-- Number of `getDocs` calls the rebuild issues: one per chunk. -/
def rebuildQueryCount (musicIds : List String) : Nat :=
  (chunkIds musicIds).length

/-- In `edit-game`, the chunked resolution of added soundtracks runs only
inside `if (addedSoundtrackIds.length)`, so an empty id set issues no
query at all. -/
def editSoundtrackQueryCount (addedSoundtrackIds : List String) : Nat :=
  if addedSoundtrackIds.length = 0 then 0 else (chunkIds addedSoundtrackIds).length

/-! ### Lemmas about the rebuild -/

theorem applyUpdate_append (t : Nat) (s : StaffDoc) (es₁ es₂ : List StaffUpdateEntry) :
    applyUpdate t s (es₁ ++ es₂) = applyUpdate t (applyUpdate t s es₁) es₂ := by
  simp [applyUpdate, List.foldl_append]

theorem applyEntry_musicIds (t : Nat) (s : StaffDoc) (e : StaffUpdateEntry) :
    (applyEntry t s e).musicIds = s.musicIds := by
  cases e <;> rfl

theorem applyUpdate_musicIds (t : Nat) (es : List StaffUpdateEntry) :
    ∀ (s : StaffDoc), (applyUpdate t s es).musicIds = s.musicIds := by
  induction es with
  | nil => intro s; rfl
  | cons e es ih =>
    intro s
    simp only [applyUpdate, List.foldl_cons]
    rw [show (es.foldl (applyEntry t) (applyEntry t s e)) = applyUpdate t (applyEntry t s e) es from rfl,
      ih, applyEntry_musicIds]

theorem applyEntry_name (t : Nat) (s : StaffDoc) (e : StaffUpdateEntry) :
    (applyEntry t s e).name = s.name := by
  cases e <;> rfl

theorem applyUpdate_name (t : Nat) (es : List StaffUpdateEntry) :
    ∀ (s : StaffDoc), (applyUpdate t s es).name = s.name := by
  induction es with
  | nil => intro s; rfl
  | cons e es ih =>
    intro s
    simp only [applyUpdate, List.foldl_cons]
    rw [show (es.foldl (applyEntry t) (applyEntry t s e)) = applyUpdate t (applyEntry t s e) es from rfl,
      ih, applyEntry_name]

theorem applyEntry_description (t : Nat) (s : StaffDoc) (e : StaffUpdateEntry) :
    (applyEntry t s e).description = s.description := by
  cases e <;> rfl

theorem applyUpdate_description (t : Nat) (es : List StaffUpdateEntry) :
    ∀ (s : StaffDoc), (applyUpdate t s es).description = s.description := by
  induction es with
  | nil => intro s; rfl
  | cons e es ih =>
    intro s
    simp only [applyUpdate, List.foldl_cons]
    rw [show (es.foldl (applyEntry t) (applyEntry t s e)) = applyUpdate t (applyEntry t s e) es from rfl,
      ih, applyEntry_description]

/-- Keys resolved by the chunk queries all come from the requested id
list. -/
theorem newCachedMusic_key_mem (store : MusicStore) (musicIds : List String) :
    ∀ kv ∈ newCachedMusic store musicIds, kv.1 ∈ musicIds := by
  intro kv hkv
  simp only [newCachedMusic, List.mem_flatten, List.mem_map] at hkv
  obtain ⟨res, ⟨chunk, hchunk, rfl⟩, hmem⟩ := hkv
  simp only [queryIn, List.mem_filter] at hmem
  have hin : kv.1 ∈ chunk := by
    have := hmem.2
    simpa [List.contains_iff_exists_mem_beq] using this
  rw [← chunkIds_flatten musicIds]
  exact List.mem_flatten.mpr ⟨chunk, hchunk, hin⟩

/-- Every resolved entry carries the store's authoritative data for its
key, provided the store has no duplicate document ids. -/
theorem newCachedMusic_val (store : MusicStore) (musicIds : List String)
    (hs : (store.map Prod.fst).Nodup) :
    ∀ kv ∈ newCachedMusic store musicIds, assocLookup store kv.1 = some kv.2 := by
  intro kv hkv
  simp only [newCachedMusic, List.mem_flatten, List.mem_map] at hkv
  obtain ⟨res, ⟨chunk, hchunk, rfl⟩, hmem⟩ := hkv
  simp only [queryIn, List.mem_filter] at hmem
  have hstore : kv ∈ store := hmem.1
  clear hmem hchunk
  induction store with
  | nil => simp at hstore
  | cons p rest ih =>
    rcases List.mem_cons.mp hstore with h | h
    · subst h
      simp [assocLookup]
    · have hne : p.1 ≠ kv.1 := by
        simp only [List.map_cons, List.nodup_cons] at hs
        intro hcontra
        exact hs.1 (hcontra ▸ List.mem_map_of_mem Prod.fst h)
      have : (p.1 == kv.1) = false := by simpa using hne
      simp only [assocLookup, this, Bool.false_eq_true, if_false]
      exact ih (by simpa using (List.map_cons Prod.fst p rest ▸ hs).of_cons) h

/-- A resolved entry exists for a key exactly when the key was requested
and its document exists. -/
theorem newCachedMusic_mem_key (store : MusicStore) (musicIds : List String) (k : String) :
    (∃ v, (k, v) ∈ newCachedMusic store musicIds) ↔
      (k ∈ musicIds ∧ ∃ v, (k, v) ∈ store) := by
  constructor
  · rintro ⟨v, hv⟩
    refine ⟨newCachedMusic_key_mem store musicIds (k, v) hv, v, ?_⟩
    simp only [newCachedMusic, List.mem_flatten, List.mem_map] at hv
    obtain ⟨res, ⟨chunk, hchunk, rfl⟩, hmem⟩ := hv
    exact (List.mem_filter.mp hmem).1
  · rintro ⟨hk, v, hv⟩
    rw [← chunkIds_flatten musicIds] at hk
    obtain ⟨chunk, hchunk, hkc⟩ := List.mem_flatten.mp hk
    refine ⟨v, ?_⟩
    simp only [newCachedMusic, List.mem_flatten, List.mem_map]
    refine ⟨queryIn store chunk, ⟨chunk, hchunk, rfl⟩, ?_⟩
    simp only [queryIn, List.mem_filter]
    have hc : chunk.contains k = true := by
      simp only [List.contains_iff_exists_mem_beq]
      exact ⟨k, hkc, by simp⟩
    exact ⟨hv, hc⟩

/-! ### The rebuild at the level of the `cachedMusic` map -/

/-- Effect of one payload entry on the `cachedMusic` map alone. -/
def applyEntryCM (cm : List (String × MusicDoc)) : StaffUpdateEntry → List (String × MusicDoc)
  | .delCached m => assocErase cm m
  | .setCached m v => assocSet cm m v
  | .stamp => cm

def applyUpdateCM (cm : List (String × MusicDoc)) (es : List StaffUpdateEntry) :
    List (String × MusicDoc) :=
  es.foldl applyEntryCM cm

theorem applyEntry_cachedMusic (t : Nat) (s : StaffDoc) (e : StaffUpdateEntry) :
    (applyEntry t s e).cachedMusic = applyEntryCM s.cachedMusic e := by
  cases e <;> rfl

theorem applyUpdate_cachedMusic (t : Nat) (es : List StaffUpdateEntry) :
    ∀ (s : StaffDoc), (applyUpdate t s es).cachedMusic = applyUpdateCM s.cachedMusic es := by
  induction es with
  | nil => intro s; rfl
  | cons e es ih =>
    intro s
    simp only [applyUpdate, applyUpdateCM, List.foldl_cons]
    rw [show (es.foldl (applyEntry t) (applyEntry t s e)) = applyUpdate t (applyEntry t s e) es from rfl,
      ih, applyEntry_cachedMusic]
    rfl

theorem applyUpdateCM_append (cm : List (String × MusicDoc)) (es₁ es₂ : List StaffUpdateEntry) :
    applyUpdateCM cm (es₁ ++ es₂) = applyUpdateCM (applyUpdateCM cm es₁) es₂ := by
  simp [applyUpdateCM, List.foldl_append]

theorem scontains_iff (l : List String) (a : String) : l.contains a = true ↔ a ∈ l := by
  simp [List.contains_iff_exists_mem_beq]

/-- Applying all the `deleteField()` entries filters the map down to the
keys outside the deleted id list. -/
theorem applyUpdateCM_dels (ids : List String) :
    ∀ (cm : List (String × MusicDoc)),
      applyUpdateCM cm (ids.map StaffUpdateEntry.delCached)
        = cm.filter (fun kv => !(ids.contains kv.1)) := by
  induction ids with
  | nil =>
    intro cm
    simp [applyUpdateCM, List.contains]
  | cons i ids ih =>
    intro cm
    simp only [List.map_cons, applyUpdateCM, List.foldl_cons]
    rw [show (ids.map StaffUpdateEntry.delCached).foldl applyEntryCM (applyEntryCM cm (.delCached i))
        = applyUpdateCM (applyEntryCM cm (.delCached i)) (ids.map StaffUpdateEntry.delCached) from rfl]
    rw [ih]
    show (assocErase cm i).filter _ = _
    rw [assocErase_eq_filter, List.filter_filter]
    apply List.filter_congr
    intro kv _
    simp only [List.contains_cons, Bool.not_or, bne]
    rw [Bool.and_comm]

theorem applyUpdateCM_sets_lookup (store : MusicStore) (R : List (String × MusicDoc)) :
    ∀ (base : List (String × MusicDoc)) (k : String),
      (∀ kv ∈ R, assocLookup store kv.1 = some kv.2) →
      assocLookup (applyUpdateCM base (R.map (fun kv => StaffUpdateEntry.setCached kv.1 kv.2))) k
        = if (R.map Prod.fst).contains k then assocLookup store k else assocLookup base k := by
  induction R with
  | nil =>
    intro base k _
    simp [applyUpdateCM, List.contains]
  | cons kv R ih =>
    intro base k hR
    simp only [List.map_cons, applyUpdateCM, List.foldl_cons]
    rw [show (R.map (fun kv => StaffUpdateEntry.setCached kv.1 kv.2)).foldl applyEntryCM
          (applyEntryCM base (.setCached kv.1 kv.2))
        = applyUpdateCM (applyEntryCM base (.setCached kv.1 kv.2))
            (R.map (fun kv => StaffUpdateEntry.setCached kv.1 kv.2)) from rfl]
    rw [ih (applyEntryCM base (.setCached kv.1 kv.2)) k (fun kv hkv => hR kv (List.mem_cons_of_mem _ hkv))]
    show (if (R.map Prod.fst).contains k then assocLookup store k
      else assocLookup (assocSet base kv.1 kv.2) k) = _
    by_cases hRk : (R.map Prod.fst).contains k
    · have hc : ((kv.1 :: R.map Prod.fst).contains k) = true := by
        rw [List.contains_cons, hRk, Bool.or_true]
      rw [if_pos hRk]
      exact (if_pos hc).symm
    · rw [if_neg hRk, assocLookup_set]
      by_cases hk : k = kv.1
      · subst hk
        have hv : assocLookup store kv.1 = some kv.2 := hR kv (List.mem_cons_self kv R)
        simp [List.contains_cons, hv]
      · have hne : (k == kv.1) = false := by simpa using hk
        simp only [List.map_cons, List.contains_cons, hne, Bool.false_or]
        rw [if_neg hk, if_neg hRk]

/-- Deleting a set of ids again after writes confined to those ids gives
the same map as deleting them from the original. -/
theorem filter_applyUpdateCM_sets (ids : List String) (R : List (String × MusicDoc))
    (hR : ∀ kv ∈ R, kv.1 ∈ ids) :
    ∀ (base : List (String × MusicDoc)),
      (applyUpdateCM base (R.map (fun kv => StaffUpdateEntry.setCached kv.1 kv.2))).filter
          (fun kv => !(ids.contains kv.1))
        = base.filter (fun kv => !(ids.contains kv.1)) := by
  induction R with
  | nil => intro base; simp [applyUpdateCM]
  | cons kv R ih =>
    intro base
    simp only [List.map_cons, applyUpdateCM, List.foldl_cons]
    rw [show (R.map (fun kv => StaffUpdateEntry.setCached kv.1 kv.2)).foldl applyEntryCM
          (applyEntryCM base (.setCached kv.1 kv.2))
        = applyUpdateCM (applyEntryCM base (.setCached kv.1 kv.2))
            (R.map (fun kv => StaffUpdateEntry.setCached kv.1 kv.2)) from rfl]
    rw [ih (fun kv hkv => hR kv (List.mem_cons_of_mem _ hkv))]
    show (assocSet base kv.1 kv.2).filter _ = _
    have hmem : kv.1 ∈ ids := hR kv (List.mem_cons_self kv R)
    rw [assocSet, List.filter_append, assocErase_eq_filter, List.filter_filter]
    have h2 : List.filter (fun kv' => !(ids.contains kv'.1)) [(kv.1, kv.2)] = [] := by
      simp [List.filter, hmem]
    rw [h2, List.append_nil]
    apply List.filter_congr
    intro kv' _
    by_cases h : kv'.1 = kv.1
    · simp [h, hmem]
    · simp [bne, h]

theorem assocLookup_none_iff {α : Type} (m : List (String × α)) (k : String) :
    assocLookup m k = none ↔ ∀ v, (k, v) ∉ m := by
  induction m with
  | nil => simp [assocLookup]
  | cons kv rest ih =>
    by_cases h : kv.1 = k
    · subst h
      constructor
      · intro hcontra
        simp [assocLookup] at hcontra
      · intro hall
        exact absurd (List.mem_cons_self kv rest) (by simpa using hall kv.2)
    · have hne : (kv.1 == k) = false := by simpa using h
      simp only [assocLookup, hne, Bool.false_eq_true, if_false, ih, List.mem_cons]
      constructor
      · intro hall v hv
        rcases hv with hv | hv
        · exact h (congrArg Prod.fst hv).symm
        · exact hall v hv
      · intro hall v hv
        exact hall v (Or.inr hv)

theorem mem_map_fst_iff {α : Type} (R : List (String × α)) (k : String) :
    k ∈ R.map Prod.fst ↔ ∃ v, (k, v) ∈ R := by
  constructor
  · intro hmem
    obtain ⟨kv, hkv, hk⟩ := List.mem_map.mp hmem
    exact ⟨kv.2, by rwa [show (k, kv.2) = kv from Prod.ext hk.symm rfl]⟩
  · rintro ⟨v, hv⟩
    exact List.mem_map.mpr ⟨(k, v), hv, rfl⟩

theorem assocLookup_filterOut {α : Type} (ids : List String) (cm : List (String × α))
    (k : String) (hk : k ∈ ids) :
    assocLookup (cm.filter (fun kv => !(ids.contains kv.1))) k = none := by
  induction cm with
  | nil => rfl
  | cons kv rest ih =>
    rw [List.filter_cons]
    cases hcont : ids.contains kv.1 with
    | true =>
      rw [if_neg (by simp)]
      exact ih
    | false =>
      rw [if_pos (show (!false) = true from rfl)]
      have hneq : kv.1 ≠ k := by
        intro hh
        rw [hh, (scontains_iff ids k).mpr hk] at hcont
        exact Bool.noConfusion hcont
      have hne : (kv.1 == k) = false := beq_eq_false_iff_ne.mpr hneq
      show (if (kv.1 == k) = true then some kv.2 else
        assocLookup (rest.filter (fun kv => !(ids.contains kv.1))) k) = none
      rw [if_neg (by rw [hne]; exact Bool.noConfusion)]
      exact ih

theorem assocLookup_filterKeep {α : Type} (ids : List String) (cm : List (String × α))
    (k : String) (hk : k ∉ ids) :
    assocLookup (cm.filter (fun kv => !(ids.contains kv.1))) k = assocLookup cm k := by
  induction cm with
  | nil => rfl
  | cons kv rest ih =>
    rw [List.filter_cons]
    cases hcont : ids.contains kv.1 with
    | true =>
      rw [if_neg (by simp)]
      rw [ih]
      have hneq : kv.1 ≠ k := fun hh => hk (hh ▸ (scontains_iff ids kv.1).mp hcont)
      have hne : (kv.1 == k) = false := beq_eq_false_iff_ne.mpr hneq
      show assocLookup rest k = (if (kv.1 == k) = true then some kv.2 else assocLookup rest k)
      rw [if_neg (by rw [hne]; exact Bool.noConfusion)]
    | false =>
      rw [if_pos (show (!false) = true from rfl)]
      cases hbk : kv.1 == k with
      | true =>
        show (if (kv.1 == k) = true then some kv.2 else _) =
          (if (kv.1 == k) = true then some kv.2 else assocLookup rest k)
        rw [if_pos hbk, if_pos hbk]
      | false =>
        show (if (kv.1 == k) = true then some kv.2 else
            assocLookup (rest.filter (fun kv => !(ids.contains kv.1))) k) =
          (if (kv.1 == k) = true then some kv.2 else assocLookup rest k)
        rw [if_neg (by rw [hbk]; exact Bool.noConfusion), if_neg (by rw [hbk]; exact Bool.noConfusion)]
        exact ih

/-- Normal form of the rebuilt `cachedMusic` map: the previous map
restricted to keys outside `musicIds`, then the resolved documents
written over it. -/
theorem rebuildStaff_cachedMusic_eq (t : Nat) (store : MusicStore) (s : StaffDoc) :
    (rebuildStaff t store s).cachedMusic
      = applyUpdateCM (s.cachedMusic.filter (fun kv => !(s.musicIds.contains kv.1)))
          ((newCachedMusic store s.musicIds).map (fun kv => StaffUpdateEntry.setCached kv.1 kv.2)) := by
  unfold rebuildStaff rebuildPayload
  rw [applyUpdate_cachedMusic, applyUpdateCM_append, applyUpdateCM_append, applyUpdateCM_dels]
  rfl

/-- Pointwise description of the rebuilt `cachedMusic` map: ids in
`musicIds` now carry exactly the store's current data (or are gone when
their document is missing), and every other key keeps its previous,
possibly stale, entry. -/
theorem rebuildStaff_lookup (t : Nat) (store : MusicStore) (s : StaffDoc)
    (hs : (store.map Prod.fst).Nodup) (k : String) :
    assocLookup (rebuildStaff t store s).cachedMusic k
      = if s.musicIds.contains k then assocLookup store k
        else assocLookup s.cachedMusic k := by
  rw [rebuildStaff_cachedMusic_eq,
    applyUpdateCM_sets_lookup store (newCachedMusic store s.musicIds) _ k
      (newCachedMusic_val store s.musicIds hs)]
  by_cases hk : k ∈ s.musicIds
  · rw [if_pos ((scontains_iff _ _).mpr hk)]
    by_cases hstore : ∃ v, (k, v) ∈ store
    · have hRk : k ∈ (newCachedMusic store s.musicIds).map Prod.fst :=
        (mem_map_fst_iff _ _).mpr
          ((newCachedMusic_mem_key store s.musicIds k).mpr ⟨hk, hstore⟩)
      rw [if_pos ((scontains_iff _ _).mpr hRk)]
    · have hnone : assocLookup store k = none :=
        (assocLookup_none_iff store k).mpr (by push_neg at hstore; exact hstore)
      have hRk : k ∉ (newCachedMusic store s.musicIds).map Prod.fst := by
        intro hmem
        exact hstore ((newCachedMusic_mem_key store s.musicIds k).mp
          ((mem_map_fst_iff _ _).mp hmem)).2
      have hcf : ((newCachedMusic store s.musicIds).map Prod.fst).contains k = false := by
        cases hcont : ((newCachedMusic store s.musicIds).map Prod.fst).contains k
        · rfl
        · exact absurd ((scontains_iff _ _).mp hcont) hRk
      rw [if_neg (by rw [hcf]; exact fun hh => Bool.noConfusion hh),
        assocLookup_filterOut s.musicIds s.cachedMusic k hk, hnone]
  · have hcs : s.musicIds.contains k = false := by
      cases hcont : s.musicIds.contains k
      · rfl
      · exact absurd ((scontains_iff _ _).mp hcont) hk
    have hRk : k ∉ (newCachedMusic store s.musicIds).map Prod.fst := by
      intro hmem
      obtain ⟨v, hv⟩ := (mem_map_fst_iff _ _).mp hmem
      exact hk (newCachedMusic_key_mem store s.musicIds (k, v) hv)
    have hcf : ((newCachedMusic store s.musicIds).map Prod.fst).contains k = false := by
      cases hcont : ((newCachedMusic store s.musicIds).map Prod.fst).contains k
      · rfl
      · exact absurd ((scontains_iff _ _).mp hcont) hRk
    rw [if_neg (by rw [hcf]; exact fun hh => Bool.noConfusion hh),
      assocLookup_filterKeep s.musicIds s.cachedMusic k hk,
      if_neg (by rw [hcs]; exact fun hh => Bool.noConfusion hh)]

theorem rebuildStaff_musicIds (t : Nat) (store : MusicStore) (s : StaffDoc) :
    (rebuildStaff t store s).musicIds = s.musicIds := by
  unfold rebuildStaff
  rw [applyUpdate_musicIds]

/-- Running the rebuild a second time, with no change to the music store
in between, reproduces the same `cachedMusic` map. -/
theorem rebuildStaff_idem (t₁ t₂ : Nat) (store : MusicStore) (s : StaffDoc) :
    (rebuildStaff t₂ store (rebuildStaff t₁ store s)).cachedMusic
      = (rebuildStaff t₁ store s).cachedMusic := by
  rw [rebuildStaff_cachedMusic_eq t₂ store (rebuildStaff t₁ store s),
    rebuildStaff_cachedMusic_eq t₁ store s, rebuildStaff_musicIds]
  congr 1
  rw [filter_applyUpdateCM_sets s.musicIds (newCachedMusic store s.musicIds)
      (fun kv hkv => newCachedMusic_key_mem store s.musicIds kv hkv),
    List.filter_filter]
  apply List.filter_congr
  intro kv _
  exact Bool.and_self _

/-! ## Game edit workflow (`src/pages/edit-game/index.tsx`, `handleSave`) -/

/-- The four-field summary projection of a game (`GameCacheSchema`):
exactly the fields embedded into character docs and the games aggregate
cache document. -/
structure GameSummary where
  name : String
  category : String
  releaseDate : String
  hasCoverImage : Bool
deriving DecidableEq, Repr

/-- An entry of the characters aggregate cache document
(`CharacterCacheSchema`), embedded into a game's `cachedCharacters`. -/
structure CharacterCache where
  name : String
deriving DecidableEq, Repr

/-- A game document (`GameSchema`), as loaded into `currentGameData` and
as rebuilt into `newData`. -/
structure GameData where
  name : String
  category : String
  subcategory : String
  platforms : List String
  releaseDate : String
  description : String
  descriptionSourceName : String
  descriptionSourceUrl : String
  characterIds : List String
  characterSpoilerIds : List String
  soundtrackIds : List String
  hasCoverImage : Bool
  hasBannerImage : Bool
  aliases : List String
  noLocalizations : Bool
  cachedSoundtracks : List (String × MusicDoc)
  cachedCharacters : List (String × CharacterCache)
deriving DecidableEq, Repr

/-- The validated form values handed to `handleSave` (after release-date
formatting): `releaseDate` is the already formatted string and
`coverUploaded` records whether a new cover image file was attached. -/
structure GameForm where
  id : String
  name : String
  category : String
  subcategory : String
  platforms : List String
  releaseDate : String
  description : String
  descriptionSourceName : String
  descriptionSourceUrl : String
  characterIds : List String
  characterSpoilerIds : List String
  soundtrackIds : List String
  hasCoverImage : Bool
  hasBannerImage : Bool
  aliases : List String
  noLocalizations : Bool
  coverUploaded : Bool
deriving DecidableEq, Repr

/-- Source `newHasCoverImage`: forced to `true` when a cover file was uploaded. -/
def newHasCoverImage (f : GameForm) : Bool :=
  f.coverUploaded || f.hasCoverImage

/-- Source `newCacheData` (also built a second time as `newGameCacheData`): the
summary embedded everywhere on this save. -/
def newCacheData (f : GameForm) : GameSummary :=
  { name := f.name
    category := f.category
    releaseDate := f.releaseDate
    hasCoverImage := newHasCoverImage f }

/-- The summary projection of a loaded game document. -/
def summaryOf (g : GameData) : GameSummary :=
  { name := g.name
    category := g.category
    releaseDate := g.releaseDate
    hasCoverImage := g.hasCoverImage }

/-- Source `isCacheDataChanged`, exactly the four-comparison disjunction of the
source (both at lines 395-400 and 531-535). -/
def isCacheDataChanged (prev : GameData) (f : GameForm) : Bool :=
  prev.name != f.name || prev.category != f.category
    || prev.releaseDate != f.releaseDate || prev.hasCoverImage != newHasCoverImage f

/-- Source `removedSoundtrackIds`: previous soundtrack ids missing from the new
list. -/
def removedSoundtrackIds (prev : GameData) (f : GameForm) : List String :=
  prev.soundtrackIds.filter (fun i => !(f.soundtrackIds.contains i))

/-- Source `addedSoundtrackIds`: new soundtrack ids missing from the previous
list. -/
def addedSoundtrackIds (prev : GameData) (f : GameForm) : List String :=
  f.soundtrackIds.filter (fun i => !(prev.soundtrackIds.contains i))

/-- Source `removedCharacterIds`. -/
def removedCharacterIds (prev : GameData) (f : GameForm) : List String :=
  prev.characterIds.filter (fun i => !(f.characterIds.contains i))

/-- Source `addedCharacterIds`. -/
def addedCharacterIds (prev : GameData) (f : GameForm) : List String :=
  f.characterIds.filter (fun i => !(prev.characterIds.contains i))

/-- Source `retainedCharacterIds`: new character ids also present before. -/
def retainedCharacterIds (prev : GameData) (f : GameForm) : List String :=
  f.characterIds.filter (fun i => prev.characterIds.contains i)

/-- The `newData` document written over the game doc by the final
`batch.set`: form values, plus the cached maps carried over from
`currentGameData` with removed entries deleted and added entries filled
from the chunk queries (`cachedSoundtracks`) or the characters aggregate
cache (`cachedCharacters`). -/
def newGameData (prev : GameData) (f : GameForm) (music : MusicStore)
    (charactersCache : List (String × CharacterCache)) : GameData :=
  let cachedSoundtracks0 :=
    (removedSoundtrackIds prev f).foldl assocErase prev.cachedSoundtracks
  let cachedSoundtracks :=
    (newCachedMusic music (addedSoundtrackIds prev f)).foldl
      (fun acc kv => assocSet acc kv.1 kv.2) cachedSoundtracks0
  let cachedCharacters0 :=
    (removedCharacterIds prev f).foldl assocErase prev.cachedCharacters
  let cachedCharacters :=
    (addedCharacterIds prev f).foldl
      (fun acc c =>
        match assocLookup charactersCache c with
        | some cc => assocSet acc c cc
        | none => acc)
      cachedCharacters0
  { name := f.name
    category := f.category
    subcategory := f.subcategory
    platforms := f.platforms
    releaseDate := f.releaseDate
    description := f.description
    descriptionSourceName := f.descriptionSourceName
    descriptionSourceUrl := f.descriptionSourceUrl
    characterIds := f.characterIds
    characterSpoilerIds := f.characterSpoilerIds
    soundtrackIds := f.soundtrackIds
    hasCoverImage := newHasCoverImage f
    hasBannerImage := f.hasBannerImage
    aliases := f.aliases
    noLocalizations := f.noLocalizations
    cachedSoundtracks := cachedSoundtracks
    cachedCharacters := cachedCharacters }

/-- One write-batch entry of the game edit.  Each constructor is one
`batch.update` / `batch.set` call of `handleSave`:
* `charCacheRefresh c gid s`  — `update(characters/c, { cachedGames.gid: s })`;
* `gamesCacheSet gid s`       — `update(cache/games, { gid: s })`;
* `musicRemoveDep m gid`      — `update(music/m, { dependentGameIds: arrayRemove(gid) })`;
* `musicAddDep m gid`         — `update(music/m, { dependentGameIds: arrayUnion(gid) })`;
* `charRemoveGame c gid`      — `update(characters/c, { gameIds: arrayRemove(gid), cachedGames.gid: deleteField() })`;
* `charAddGame c gid s`       — `update(characters/c, { gameIds: arrayUnion(gid), cachedGames.gid: s })`;
* `gameSet gid data`          — `set(games/gid, data)`. -/
inductive Patch where
  | charCacheRefresh (charId : String) (gameId : String) (s : GameSummary)
  | gamesCacheSet (gameId : String) (s : GameSummary)
  | musicRemoveDep (musicId : String) (gameId : String)
  | musicAddDep (musicId : String) (gameId : String)
  | charRemoveGame (charId : String) (gameId : String)
  | charAddGame (charId : String) (gameId : String) (s : GameSummary)
  | gameSet (gameId : String) (data : GameData)
deriving DecidableEq, Repr

/-- The full write batch of `handleSave`, in emission order:
1. when the summary changed, a `cachedGames.gid` refresh on every id of
   the PREVIOUS `characterIds` plus a games-cache update (lines 394-420);
2. the removed-soundtrack updates; 3. the added-soundtrack updates;
4. the removed-character updates; 5. the added-character updates;
6. when the summary changed, a refresh on every retained character plus a
   second games-cache update (lines 531-560); 7. the game doc `set`. -/
def gameEditPatches (prev : GameData) (f : GameForm) (music : MusicStore)
    (charactersCache : List (String × CharacterCache)) : List Patch :=
  (if isCacheDataChanged prev f then
      prev.characterIds.map (fun c => Patch.charCacheRefresh c f.id (newCacheData f))
        ++ [Patch.gamesCacheSet f.id (newCacheData f)]
    else [])
  ++ (removedSoundtrackIds prev f).map (fun m => Patch.musicRemoveDep m f.id)
  ++ (addedSoundtrackIds prev f).map (fun m => Patch.musicAddDep m f.id)
  ++ (removedCharacterIds prev f).map (fun c => Patch.charRemoveGame c f.id)
  ++ (addedCharacterIds prev f).map (fun c => Patch.charAddGame c f.id (newCacheData f))
  ++ (if isCacheDataChanged prev f then
      (retainedCharacterIds prev f).map (fun c => Patch.charCacheRefresh c f.id (newCacheData f))
        ++ [Patch.gamesCacheSet f.id (newCacheData f)]
    else [])
  ++ [Patch.gameSet f.id (newGameData prev f music charactersCache)]

/-- The path list handed to `revalidatePaths` after the commit
(lines 568-588). -/
def gameRevalidationPaths (prev : GameData) (f : GameForm) : List String :=
  ["/games/" ++ f.id]
  ++ (if isCacheDataChanged prev f || f.coverUploaded then ["/games"] else [])
  ++ (if (isCacheDataChanged prev f || f.coverUploaded)
        && (f.category == "Ys Series" || f.category == "Ys / Trails Series")
      then ["/ys-series"] else [])
  ++ (if (isCacheDataChanged prev f || f.coverUploaded)
        && (f.category == "Trails Series" || f.category == "Ys / Trails Series")
      then ["/trails-series"] else [])
  ++ (if (isCacheDataChanged prev f || f.coverUploaded)
        && (f.category == "Gagharv Trilogy")
      then ["/gagharv-trilogy"] else [])
  ++ (removedCharacterIds prev f).map (fun c => "/characters/" ++ c)
  ++ (addedCharacterIds prev f).map (fun c => "/characters/" ++ c)

/-! ### Patch classification helpers -/

/-- Does the patch target the character document `c`? -/
def touchesChar (p : Patch) (c : String) : Bool :=
  match p with
  | .charCacheRefresh c' _ _ => c' == c
  | .charRemoveGame c' _ => c' == c
  | .charAddGame c' _ _ => c' == c
  | _ => false

/-- Does the patch target the music document `m`? -/
def touchesMusic (p : Patch) (m : String) : Bool :=
  match p with
  | .musicRemoveDep m' _ => m' == m
  | .musicAddDep m' _ => m' == m
  | _ => false

/-- Is the patch an update of the games aggregate cache document? -/
def isAggregatePatch (p : Patch) : Bool :=
  match p with
  | .gamesCacheSet _ _ => true
  | _ => false

/-- Is the patch a summary refresh on a dependent character document? -/
def isRefreshPatch (p : Patch) : Bool :=
  match p with
  | .charCacheRefresh _ _ _ => true
  | _ => false

/-! ### The document store and the atomic batch commit -/

/-- A character document: its reverse `gameIds` list and its
`cachedGames` map of embedded game summaries. -/
structure CharacterDoc where
  name : String
  gameIds : List String
  cachedGames : List (String × GameSummary)
deriving DecidableEq, Repr

/-- Firestore `arrayUnion`: set-semantics append. -/
def arrayUnion (l : List String) (x : String) : List String :=
  if l.contains x then l else l ++ [x]

/-- Firestore `arrayRemove`: removes every occurrence. -/
def arrayRemove (l : List String) (x : String) : List String :=
  l.filter (fun y => y != x)

/-- The relevant collections of the document store. -/
structure Store where
  games : List (String × GameData)
  characters : List (String × CharacterDoc)
  music : MusicStore
  gamesCache : List (String × GameSummary)
deriving DecidableEq, Repr

/-- Effect of one batch entry on the store.  `batch.update` on a missing
document fails (`none`), which makes the whole commit fail; `batch.set`
and updates on the always-present cache singleton succeed. -/
def applyPatch (st : Store) : Patch → Option Store
  | .charCacheRefresh c gid s =>
    match assocLookup st.characters c with
    | none => none
    | some d =>
      let d' : CharacterDoc := { d with cachedGames := assocSet d.cachedGames gid s }
      some { st with characters := assocSet st.characters c d' }
  | .gamesCacheSet gid s => some { st with gamesCache := assocSet st.gamesCache gid s }
  | .musicRemoveDep m gid =>
    match assocLookup st.music m with
    | none => none
    | some d =>
      let d' : MusicDoc := { d with dependentGameIds := arrayRemove d.dependentGameIds gid }
      some { st with music := assocSet st.music m d' }
  | .musicAddDep m gid =>
    match assocLookup st.music m with
    | none => none
    | some d =>
      let d' : MusicDoc := { d with dependentGameIds := arrayUnion d.dependentGameIds gid }
      some { st with music := assocSet st.music m d' }
  | .charRemoveGame c gid =>
    match assocLookup st.characters c with
    | none => none
    | some d =>
      let d' : CharacterDoc :=
        { d with gameIds := arrayRemove d.gameIds gid
                 cachedGames := assocErase d.cachedGames gid }
      some { st with characters := assocSet st.characters c d' }
  | .charAddGame c gid s =>
    match assocLookup st.characters c with
    | none => none
    | some d =>
      let d' : CharacterDoc :=
        { d with gameIds := arrayUnion d.gameIds gid
                 cachedGames := assocSet d.cachedGames gid s }
      some { st with characters := assocSet st.characters c d' }
  | .gameSet gid data => some { st with games := assocSet st.games gid data }

/-- Model of `batch.commit()`: all-or-nothing application of the whole patch
list; `none` when any update targets a missing document, in which case no
patch at all is applied. -/
def commitBatch (st : Store) (ps : List Patch) : Option Store :=
  ps.foldlM applyPatch st

/-- A successful patch application never creates a character document:
a character id missing beforehand is still missing afterwards. -/
theorem applyPatch_char_missing (st st' : Store) (p : Patch) (c : String)
    (h : applyPatch st p = some st')
    (hc : assocLookup st.characters c = none) :
    assocLookup st'.characters c = none := by
  cases p with
  | charCacheRefresh c' gid s =>
    cases hl : assocLookup st.characters c' with
    | none => simp only [applyPatch, hl] at h; exact Option.noConfusion h
    | some d =>
      simp only [applyPatch, hl, Option.some.injEq] at h
      subst h
      show assocLookup (assocSet st.characters c' _) c = none
      rw [assocLookup_set]
      by_cases hcc : c = c'
      · subst hcc; rw [hc] at hl; cases hl
      · rw [if_neg hcc]; exact hc
  | charRemoveGame c' gid =>
    cases hl : assocLookup st.characters c' with
    | none => simp only [applyPatch, hl] at h; exact Option.noConfusion h
    | some d =>
      simp only [applyPatch, hl, Option.some.injEq] at h
      subst h
      show assocLookup (assocSet st.characters c' _) c = none
      rw [assocLookup_set]
      by_cases hcc : c = c'
      · subst hcc; rw [hc] at hl; cases hl
      · rw [if_neg hcc]; exact hc
  | charAddGame c' gid s =>
    cases hl : assocLookup st.characters c' with
    | none => simp only [applyPatch, hl] at h; exact Option.noConfusion h
    | some d =>
      simp only [applyPatch, hl, Option.some.injEq] at h
      subst h
      show assocLookup (assocSet st.characters c' _) c = none
      rw [assocLookup_set]
      by_cases hcc : c = c'
      · subst hcc; rw [hc] at hl; cases hl
      · rw [if_neg hcc]; exact hc
  | gamesCacheSet gid s =>
    simp only [applyPatch, Option.some.injEq] at h
    subst h
    exact hc
  | gameSet gid data =>
    simp only [applyPatch, Option.some.injEq] at h
    subst h
    exact hc
  | musicRemoveDep m gid =>
    cases hl : assocLookup st.music m with
    | none => simp only [applyPatch, hl] at h; exact Option.noConfusion h
    | some d =>
      simp only [applyPatch, hl, Option.some.injEq] at h
      subst h
      exact hc
  | musicAddDep m gid =>
    cases hl : assocLookup st.music m with
    | none => simp only [applyPatch, hl] at h; exact Option.noConfusion h
    | some d =>
      simp only [applyPatch, hl, Option.some.injEq] at h
      subst h
      exact hc

/-- Likewise for music documents. -/
theorem applyPatch_music_missing (st st' : Store) (p : Patch) (m : String)
    (h : applyPatch st p = some st')
    (hm : assocLookup st.music m = none) :
    assocLookup st'.music m = none := by
  cases p with
  | musicRemoveDep m' gid =>
    cases hl : assocLookup st.music m' with
    | none => simp only [applyPatch, hl] at h; exact Option.noConfusion h
    | some d =>
      simp only [applyPatch, hl, Option.some.injEq] at h
      subst h
      show assocLookup (assocSet st.music m' _) m = none
      rw [assocLookup_set]
      by_cases hmm : m = m'
      · subst hmm; rw [hm] at hl; cases hl
      · rw [if_neg hmm]; exact hm
  | musicAddDep m' gid =>
    cases hl : assocLookup st.music m' with
    | none => simp only [applyPatch, hl] at h; exact Option.noConfusion h
    | some d =>
      simp only [applyPatch, hl, Option.some.injEq] at h
      subst h
      show assocLookup (assocSet st.music m' _) m = none
      rw [assocLookup_set]
      by_cases hmm : m = m'
      · subst hmm; rw [hm] at hl; cases hl
      · rw [if_neg hmm]; exact hm
  | charCacheRefresh c' gid s =>
    cases hl : assocLookup st.characters c' with
    | none => simp only [applyPatch, hl] at h; exact Option.noConfusion h
    | some d =>
      simp only [applyPatch, hl, Option.some.injEq] at h
      subst h
      exact hm
  | charRemoveGame c' gid =>
    cases hl : assocLookup st.characters c' with
    | none => simp only [applyPatch, hl] at h; exact Option.noConfusion h
    | some d =>
      simp only [applyPatch, hl, Option.some.injEq] at h
      subst h
      exact hm
  | charAddGame c' gid s =>
    cases hl : assocLookup st.characters c' with
    | none => simp only [applyPatch, hl] at h; exact Option.noConfusion h
    | some d =>
      simp only [applyPatch, hl, Option.some.injEq] at h
      subst h
      exact hm
  | gamesCacheSet gid s =>
    simp only [applyPatch, Option.some.injEq] at h
    subst h
    exact hm
  | gameSet gid data =>
    simp only [applyPatch, Option.some.injEq] at h
    subst h
    exact hm

/-- An update targeting a character document that does not exist makes
the whole commit fail. -/
theorem commitBatch_none_of_char_missing (ps : List Patch) :
    ∀ (st : Store) (c : String),
      (∃ p ∈ ps, touchesChar p c = true) →
      assocLookup st.characters c = none →
      commitBatch st ps = none := by
  induction ps with
  | nil =>
    intro st c hp _
    obtain ⟨p, hmem, _⟩ := hp
    cases hmem
  | cons q ps ih =>
    intro st c hp hc
    obtain ⟨p, hmem, htouch⟩ := hp
    rcases List.mem_cons.mp hmem with rfl | hmem
    · have happ : applyPatch st p = none := by
        cases p with
        | charCacheRefresh c' gid s =>
          have he : c' = c := by simpa [touchesChar] using htouch
          subst he
          simp [applyPatch, hc]
        | charRemoveGame c' gid =>
          have he : c' = c := by simpa [touchesChar] using htouch
          subst he
          simp [applyPatch, hc]
        | charAddGame c' gid s =>
          have he : c' = c := by simpa [touchesChar] using htouch
          subst he
          simp [applyPatch, hc]
        | gamesCacheSet gid s => simp [touchesChar] at htouch
        | gameSet gid data => simp [touchesChar] at htouch
        | musicRemoveDep m gid => simp [touchesChar] at htouch
        | musicAddDep m gid => simp [touchesChar] at htouch
      show (applyPatch st p >>= fun st' => commitBatch st' ps) = none
      rw [happ]
      rfl
    · show (applyPatch st q >>= fun st' => commitBatch st' ps) = none
      cases happ : applyPatch st q with
      | none => rfl
      | some st' =>
        show commitBatch st' ps = none
        exact ih st' c ⟨p, hmem, htouch⟩ (applyPatch_char_missing st st' q c happ hc)

/-- An update targeting a missing music document likewise fails the whole
commit. -/
theorem commitBatch_none_of_music_missing (ps : List Patch) :
    ∀ (st : Store) (m : String),
      (∃ p ∈ ps, touchesMusic p m = true) →
      assocLookup st.music m = none →
      commitBatch st ps = none := by
  induction ps with
  | nil =>
    intro st m hp _
    obtain ⟨p, hmem, _⟩ := hp
    cases hmem
  | cons q ps ih =>
    intro st m hp hm
    obtain ⟨p, hmem, htouch⟩ := hp
    rcases List.mem_cons.mp hmem with rfl | hmem
    · have happ : applyPatch st p = none := by
        cases p with
        | musicRemoveDep m' gid =>
          have he : m' = m := by simpa [touchesMusic] using htouch
          subst he
          simp [applyPatch, hm]
        | musicAddDep m' gid =>
          have he : m' = m := by simpa [touchesMusic] using htouch
          subst he
          simp [applyPatch, hm]
        | gamesCacheSet gid s => simp [touchesMusic] at htouch
        | gameSet gid data => simp [touchesMusic] at htouch
        | charCacheRefresh c gid s => simp [touchesMusic] at htouch
        | charRemoveGame c gid => simp [touchesMusic] at htouch
        | charAddGame c gid s => simp [touchesMusic] at htouch
      show (applyPatch st p >>= fun st' => commitBatch st' ps) = none
      rw [happ]
      rfl
    · show (applyPatch st q >>= fun st' => commitBatch st' ps) = none
      cases happ : applyPatch st q with
      | none => rfl
      | some st' =>
        show commitBatch st' ps = none
        exact ih st' m ⟨p, hmem, htouch⟩ (applyPatch_music_missing st st' q m happ hm)

/-- Every added character id gets a `charAddGame` patch in the batch. -/
theorem charAdd_mem_gameEditPatches (prev : GameData) (f : GameForm) (music : MusicStore)
    (cc : List (String × CharacterCache)) (c : String)
    (hc : c ∈ addedCharacterIds prev f) :
    Patch.charAddGame c f.id (newCacheData f) ∈ gameEditPatches prev f music cc := by
  unfold gameEditPatches
  refine List.mem_append_left _ ?_
  refine List.mem_append_left _ ?_
  refine List.mem_append_right _ ?_
  exact List.mem_map_of_mem _ hc

/-- Every added soundtrack id gets a `musicAddDep` patch in the batch. -/
theorem musicAdd_mem_gameEditPatches (prev : GameData) (f : GameForm) (music : MusicStore)
    (cc : List (String × CharacterCache)) (m : String)
    (hm : m ∈ addedSoundtrackIds prev f) :
    Patch.musicAddDep m f.id ∈ gameEditPatches prev f music cc := by
  unfold gameEditPatches
  refine List.mem_append_left _ ?_
  refine List.mem_append_left _ ?_
  refine List.mem_append_left _ ?_
  refine List.mem_append_left _ ?_
  refine List.mem_append_right _ ?_
  exact List.mem_map_of_mem _ hm

/-! ## Invalidation notifier (`revalidatePaths`, `src/utils`)

    try { await fn(); }
    catch { try { warn 1/2; await fn(); }
      catch { try { warn 2/2; await fn(); }
        catch { console.error(...); if (enqueueSnackbar) warn-snackbar; } } }
-/

/-- Observable outcome of one `revalidatePaths` call. -/
structure RevalidateOutcome where
  attempts : Nat
  retryWarnings : Nat
  errorLogged : Bool
  snackbarWarned : Bool
  threw : Bool
deriving DecidableEq, Repr

/-- The nested try/catch of `revalidatePaths`: `endpointOk n` says whether
the n-th fetch succeeds; `hasSnackbar` records whether the optional
`enqueueSnackbar` argument was supplied. -/
def revalidatePathsRun (endpointOk : Nat → Bool) (hasSnackbar : Bool) : RevalidateOutcome :=
  if endpointOk 0 then ⟨1, 0, false, false, false⟩
  else if endpointOk 1 then ⟨2, 1, false, false, false⟩
  else if endpointOk 2 then ⟨3, 2, false, false, false⟩
  else ⟨3, 2, true, hasSnackbar, false⟩

/-- The `edit-game` call site (line 568) passes only `(paths, token)` —
no snackbar callback. -/
def editGameRevalidate (endpointOk : Nat → Bool) : RevalidateOutcome :=
  revalidatePathsRun endpointOk false

/-! ## Generic list helpers for the claim proofs -/

theorem filter_const_false {α : Type} (l : List α) :
    l.filter (fun _ => false) = [] := by
  induction l <;> simp_all

theorem any_map_eq {α β : Type} (l : List α) (f : α → β) (p : β → Bool) :
    (l.map f).any p = l.any (fun a => p (f a)) := by
  induction l <;> simp_all

theorem filter_map_comm {α β : Type} (l : List α) (f : α → β) (p : β → Bool) :
    (l.map f).filter p = (l.filter (fun a => p (f a))).map f := by
  induction l with
  | nil => rfl
  | cons x xs ih =>
    simp only [List.map_cons, List.filter_cons]
    cases hpx : p (f x) <;> simp [hpx, ih]

theorem filter_beq_nil_of_not_mem (l : List String) (a : String) (ha : a ∉ l) :
    l.filter (fun x => x == a) = [] := by
  induction l with
  | nil => rfl
  | cons x xs ih =>
    have hxa : ¬((x == a) = true) := by
      simp only [beq_iff_eq]
      intro hh
      subst hh
      exact ha (List.mem_cons_self x xs)
    rw [List.filter_cons, if_neg hxa]
    exact ih (fun hm => ha (List.mem_cons_of_mem _ hm))

theorem filter_beq_self_of_nodup (l : List String) (hn : l.Nodup) (a : String) (ha : a ∈ l) :
    l.filter (fun x => x == a) = [a] := by
  induction l with
  | nil => cases ha
  | cons x xs ih =>
    rw [List.filter_cons]
    rcases List.mem_cons.mp ha with rfl | hmem
    · rw [if_pos (by simp)]
      rw [filter_beq_nil_of_not_mem xs a (List.nodup_cons.mp hn).1]
    · have hne : ¬((x == a) = true) := by
        simp only [beq_iff_eq]
        intro hh
        exact (List.nodup_cons.mp hn).1 (hh ▸ hmem)
      rw [if_neg hne]
      exact ih (List.nodup_cons.mp hn).2 hmem

/-! ## Concrete fixtures for counterexamples and witnesses -/

/-- A music document with a given title and no other data. -/
def mdoc (t : String) : MusicDoc :=
  { title := t, albumId := "", dependentGameIds := [] }

def staffBase : StaffDoc :=
  { name := "S", description := "", musicIds := [], cachedMusic := [], updatedAt := 0 }

def gameDataBase : GameData :=
  { name := "G", category := "", subcategory := "", platforms := [], releaseDate := ""
    description := "", descriptionSourceName := "", descriptionSourceUrl := ""
    characterIds := [], characterSpoilerIds := [], soundtrackIds := []
    hasCoverImage := false, hasBannerImage := false, aliases := [], noLocalizations := false
    cachedSoundtracks := [], cachedCharacters := [] }

def gameFormBase : GameForm :=
  { id := "g1", name := "G", category := "", subcategory := "", platforms := []
    releaseDate := "", description := "", descriptionSourceName := ""
    descriptionSourceUrl := "", characterIds := [], characterSpoilerIds := []
    soundtrackIds := [], hasCoverImage := false, hasBannerImage := false
    aliases := [], noLocalizations := false, coverUploaded := false }

/-- Is an `Except` value a success? -/
def exceptOk {ε α : Type} : Except ε α → Bool
  | .ok _ => true
  | .error _ => false

def staffC2 : StaffDoc := { staffBase with musicIds := ["m1"] }

def storeC3 : MusicStore := [("m1", mdoc "M1 new title")]

def staffC3 : StaffDoc :=
  { staffBase with musicIds := ["m1"], cachedMusic := [("old", mdoc "Old entry")] }

/-! ## Claims -/

/-- C4 (counterexample): resolving the empty id set through the rebuild's
chunk executor issues one query, not zero — the `reduce` is seeded with
`[[]]`, so `musicIdsChunks = [[]]` and one `getDocs` is mapped over it. -/
theorem C4_counterexample :
    rebuildQueryCount ([] : List String) = 1 ∧ rebuildQueryCount ([] : List String) ≠ 0 := by
  exact ⟨rfl, by decide⟩

/-- C4 (amended): the rebuild executor issues `max 1 ⌈N/30⌉` chunk
queries — `⌈N/30⌉` for every `N ≥ 1` (so 1 for N=30 and 2 for N=31), but
one query over an empty chunk for N=0; the game-edit executor is guarded
by `if (addedSoundtrackIds.length)` and issues exactly `⌈N/30⌉` queries,
zero for N=0. -/
theorem C4_amended (ids : List String) :
    rebuildQueryCount ids = max 1 ((ids.length + 29) / 30)
      ∧ editSoundtrackQueryCount ids = (ids.length + 29) / 30 := by
  constructor
  · exact chunkIds_length ids
  · unfold editSoundtrackQueryCount
    by_cases h : ids.length = 0
    · rw [if_pos h, h]
    · rw [if_neg h, chunkIds_length]
      omega

/-- C5: the cache rebuild is idempotent — running it twice against the
same music store yields the same `cachedMusic` field both times,
whatever the commit timestamps are. -/
theorem C5_rebuild_idempotent (t₁ t₂ : Nat) (store : MusicStore) (s : StaffDoc) :
    (rebuildStaff t₂ store (rebuildStaff t₁ store s)).cachedMusic
      = (rebuildStaff t₁ store s).cachedMusic :=
  rebuildStaff_idem t₁ t₂ store s

/-- C7 (counterexample): the `edit-game` caller invokes `revalidatePaths`
without the optional `enqueueSnackbar` argument, so on a permanently
failing endpoint no operator-visible warning is surfaced — only the
console error — contradicting the claim that every failing invocation
surfaces a non-fatal warning. -/
theorem C7_counterexample :
    (editGameRevalidate (fun _ => false)).snackbarWarned = false
      ∧ (editGameRevalidate (fun _ => false)).errorLogged = true := by
  exact ⟨rfl, rfl⟩

/-- C7 (amended): on a permanently failing endpoint, `revalidatePaths`
makes exactly 3 attempts (one initial plus two logged retries), logs the
final error, never throws, and surfaces the snackbar warning exactly when
the caller supplied the optional snackbar callback (the edit-game caller
does not). -/
theorem C7_amended (endpointOk : Nat → Bool) (hasSnackbar : Bool)
    (hfail : ∀ n, endpointOk n = false) :
    revalidatePathsRun endpointOk hasSnackbar
      = { attempts := 3, retryWarnings := 2, errorLogged := true
          snackbarWarned := hasSnackbar, threw := false } := by
  unfold revalidatePathsRun
  simp [hfail]

/-- C7 (witness): a failing endpoint with the snackbar callback supplied. -/
theorem C7_witness :
    revalidatePathsRun (fun _ => false) true
      = { attempts := 3, retryWarnings := 2, errorLogged := true
          snackbarWarned := true, threw := false } :=
  C7_amended (fun _ => false) true (fun _ => rfl)

/-- Does a payload entry stay inside the allowed key set: a
`cachedMusic.<id>` path for some currently referenced id, or `updatedAt`? -/
def entryKeyOk (musicIds : List String) (e : StaffUpdateEntry) : Bool :=
  match entryKey e with
  | .cachedMusicKey m => musicIds.contains m
  | .updatedAtKey => true

/-- C10: the rebuild's single `updateDoc` touches only `cachedMusic.<id>`
keys for ids in the current `musicIds` plus the `updatedAt` stamp; the
staff document's `musicIds`, `name` and `description` are untouched, and
the only document written in the staff collection is the chosen one. -/
theorem C10_frame (t : Nat) (store : MusicStore) (staffStore : List (String × StaffDoc))
    (staffId : String) (s : StaffDoc) :
    ((rebuildPayload store s.musicIds).all (entryKeyOk s.musicIds) = true)
    ∧ (rebuildStaff t store s).musicIds = s.musicIds
    ∧ (rebuildStaff t store s).name = s.name
    ∧ (rebuildStaff t store s).description = s.description
    ∧ (∀ k : String,
        assocLookup (assocSet staffStore staffId (rebuildStaff t store s)) k
          = if k = staffId then some (rebuildStaff t store s)
            else assocLookup staffStore k) := by
  refine ⟨?_, rebuildStaff_musicIds t store s, ?_, ?_,
    fun k => assocLookup_set staffStore staffId k (rebuildStaff t store s)⟩
  · rw [List.all_eq_true]
    intro e he
    rcases List.mem_append.mp he with he | he
    · rcases List.mem_append.mp he with he | he
      · obtain ⟨m, hm, rfl⟩ := List.mem_map.mp he
        simpa [entryKeyOk, entryKey] using hm
      · obtain ⟨kv, hkv, rfl⟩ := List.mem_map.mp he
        have hmem := newCachedMusic_key_mem store s.musicIds kv hkv
        simpa [entryKeyOk, entryKey] using hmem
    · rw [List.mem_singleton.mp he]
      rfl
  · unfold rebuildStaff
    exact applyUpdate_name t _ s
  · unfold rebuildStaff
    exact applyUpdate_description t _ s

def prevC1 : GameData := { gameDataBase with characterIds := ["a"] }

def formC1 : GameForm := { gameFormBase with name := "G2" }

/-- The patch count asserted by the claim: one for the game document, one
per id in added ∪ removed, and — only when the summary changed — one per
retained character id plus one for the games aggregate cache. -/
def claimedPatchCount (prev : GameData) (f : GameForm) : Nat :=
  1 + (addedCharacterIds prev f).length + (removedCharacterIds prev f).length
    + (addedSoundtrackIds prev f).length + (removedSoundtrackIds prev f).length
    + (if isCacheDataChanged prev f then (retainedCharacterIds prev f).length + 1 else 0)

/-- C1 (counterexample): a name-changing edit that also removes the only
character.  The claim predicts 3 patches; the code emits 5 (the block at
lines 394-420 adds a refresh patch for the removed character and a second
games-cache patch), and even as a set of distinct patches, 4. -/
theorem C1_counterexample :
    (gameEditPatches prevC1 formC1 [] []).length = 5
      ∧ claimedPatchCount prevC1 formC1 = 3
      ∧ (gameEditPatches prevC1 formC1 [] []).dedup.length = 4 := by
  exact ⟨rfl, rfl, by decide⟩

/-- C1 (amended): the batch holds one patch for the game document, one
patch per added or removed character or soundtrack id, and — only when
the summary changed — additionally one refresh patch per id of the
PREVIOUS `characterIds` list (so removed ids get a second, superseded
patch and retained ids get their refresh twice), one refresh patch per
retained id, and two games-aggregate-cache patches. -/
theorem C1_amended (prev : GameData) (f : GameForm) (music : MusicStore)
    (cc : List (String × CharacterCache)) :
    (gameEditPatches prev f music cc).length
      = 1 + (addedCharacterIds prev f).length + (removedCharacterIds prev f).length
        + (addedSoundtrackIds prev f).length + (removedSoundtrackIds prev f).length
        + (if isCacheDataChanged prev f then
            prev.characterIds.length + (retainedCharacterIds prev f).length + 2 else 0)
    ∧ ((gameEditPatches prev f music cc).filter isAggregatePatch).length
        = (if isCacheDataChanged prev f then 2 else 0) := by
  cases h : isCacheDataChanged prev f
  · constructor
    · simp only [gameEditPatches, h, Bool.false_eq_true, if_false, List.nil_append,
        List.append_nil, List.length_append, List.length_map, List.length_singleton]
      omega
    · simp [gameEditPatches, h, List.filter_append, filter_map_comm, isAggregatePatch,
        filter_const_false]
  · constructor
    · simp only [gameEditPatches, h, if_true, List.length_append, List.length_map,
        List.length_singleton]
      omega
    · simp [gameEditPatches, h, List.filter_append, filter_map_comm, isAggregatePatch,
        filter_const_false]

/-- C2 (counterexample): the staff-music cache rebuild does NOT abort
when a referenced music id resolves to no document: with an empty music
collection and `musicIds = ["m1"]`, the run still commits (`ok`), and the
staff document is simply written without the missing entry — no
not-found failure. -/
theorem C2_counterexample :
    exceptOk (rebuildRun 0 [] [("s1", staffC2)] "s1") = true
      ∧ "m1" ∈ staffC2.musicIds
      ∧ assocLookup ([] : MusicStore) "m1" = none
      ∧ assocLookup (rebuildStaff 0 [] staffC2).cachedMusic "m1" = none := by
  exact ⟨rfl, by decide, rfl, rfl⟩

/-- C2 (amended): for game edits the property does hold, through the
store's commit semantics rather than a planner check: every newly added
character or soundtrack id receives a `batch.update` on its own document,
and updating a missing document fails the whole atomic commit, so no
patch at all is applied; the cache rebuild, in contrast, silently drops
unresolved ids (see the counterexample). -/
theorem C2_amended (st : Store) (prev : GameData) (f : GameForm)
    (music : MusicStore) (cc : List (String × CharacterCache))
    (h : (∃ c ∈ addedCharacterIds prev f, assocLookup st.characters c = none)
       ∨ (∃ m ∈ addedSoundtrackIds prev f, assocLookup st.music m = none)) :
    commitBatch st (gameEditPatches prev f music cc) = none := by
  rcases h with ⟨c, hc, hn⟩ | ⟨m, hm, hn⟩
  · exact commitBatch_none_of_char_missing _ st c
      ⟨Patch.charAddGame c f.id (newCacheData f),
        charAdd_mem_gameEditPatches prev f music cc c hc, by simp [touchesChar]⟩ hn
  · exact commitBatch_none_of_music_missing _ st m
      ⟨Patch.musicAddDep m f.id,
        musicAdd_mem_gameEditPatches prev f music cc m hm, by simp [touchesMusic]⟩ hn

def formC2 : GameForm := { gameFormBase with characterIds := ["c1"] }

def storeC2 : Store := { games := [], characters := [], music := [], gamesCache := [] }

/-- C2 (witness): adding the unknown character `c1` to a game makes the
commit fail atomically. -/
theorem C2_witness :
    commitBatch storeC2 (gameEditPatches gameDataBase formC2 [] []) = none :=
  C2_amended storeC2 gameDataBase formC2 [] [] (Or.inl ⟨"c1", by decide, rfl⟩)

/-- C3 (counterexample): the rebuild only issues `deleteField()` for ids
in the CURRENT `musicIds`, so a previously cached entry whose id left the
list (`old` here) survives the rebuild, contradicting the claim that such
entries are dropped. -/
theorem C3_counterexample :
    assocLookup (rebuildStaff 0 storeC3 staffC3).cachedMusic "old" = some (mdoc "Old entry")
      ∧ "old" ∉ staffC3.musicIds := by
  exact ⟨rfl, by decide⟩

/-- C3 (amended): after the rebuild, every id in the current `musicIds`
carries exactly the store's current document (or is absent when its
document is missing), while every key outside `musicIds` keeps its
previous — possibly stale — cached entry instead of being dropped. -/
theorem C3_amended (t : Nat) (store : MusicStore) (s : StaffDoc)
    (hs : (store.map Prod.fst).Nodup) (k : String) :
    assocLookup (rebuildStaff t store s).cachedMusic k
      = if s.musicIds.contains k then assocLookup store k
        else assocLookup s.cachedMusic k :=
  rebuildStaff_lookup t store s hs k

/-- C3 (witness): the concrete rebuild of `staffC3` against `storeC3`,
evaluated at the refreshed id `m1`. -/
theorem C3_witness :
    assocLookup (rebuildStaff 0 storeC3 staffC3).cachedMusic "m1"
      = if staffC3.musicIds.contains "m1" then assocLookup storeC3 "m1"
        else assocLookup staffC3.cachedMusic "m1" :=
  C3_amended 0 storeC3 staffC3 (by decide) "m1"

theorem any_const_false {α : Type} (l : List α) : l.any (fun _ => false) = false := by
  induction l <;> simp_all

theorem any_const_true_eq {α : Type} (l : List α) : l.any (fun _ => true) = !l.isEmpty := by
  cases l <;> simp

theorem retained_nil_of_prev_nil (prev : GameData) (f : GameForm)
    (hp : prev.characterIds = []) : retainedCharacterIds prev f = [] := by
  simp [retainedCharacterIds, hp]

/-- C6: the dependent-refresh patches and the aggregate-cache patch are
gated by `isCacheDataChanged` alone; that check is exactly field-by-field
inequality of the four summary-projection fields, and changing any other
field of the previous snapshot (description, platforms) never alters it. -/
theorem C6_summary_gate (prev : GameData) (f : GameForm) (music : MusicStore)
    (cc : List (String × CharacterCache)) :
    ((gameEditPatches prev f music cc).any isAggregatePatch = isCacheDataChanged prev f)
    ∧ ((gameEditPatches prev f music cc).any isRefreshPatch
        = (isCacheDataChanged prev f && !prev.characterIds.isEmpty))
    ∧ (isCacheDataChanged prev f = (summaryOf prev != newCacheData f))
    ∧ (∀ d : String,
        isCacheDataChanged { prev with description := d } f = isCacheDataChanged prev f)
    ∧ (∀ pl : List String,
        isCacheDataChanged { prev with platforms := pl } f = isCacheDataChanged prev f) := by
  refine ⟨?_, ?_, ?_, fun d => rfl, fun pl => rfl⟩
  · cases h : isCacheDataChanged prev f <;>
      simp [gameEditPatches, h, List.any_append, any_map_eq, isAggregatePatch,
        isRefreshPatch, any_const_false]
  · cases h : isCacheDataChanged prev f
    · simp [gameEditPatches, h, List.any_append, any_map_eq, isAggregatePatch,
        isRefreshPatch, any_const_false]
    · cases hp : prev.characterIds with
      | nil =>
        simp [gameEditPatches, h, hp, retained_nil_of_prev_nil prev f hp,
          List.any_append, any_map_eq, isRefreshPatch, any_const_false]
      | cons x xs =>
        simp [gameEditPatches, h, hp, List.any_append, any_map_eq, isRefreshPatch,
          any_const_false, isAggregatePatch]
  · unfold isCacheDataChanged summaryOf newCacheData
    rw [Bool.eq_iff_iff]
    simp only [Bool.or_eq_true, bne_iff_ne, ne_eq, GameSummary.mk.injEq, not_and]
    tauto

/-- With an unchanged summary, the batch restricted to patches touching a
character `c` is exactly the removal patches for `c` plus the addition
patches for `c`. -/
theorem filter_touchesChar_unchanged (prev : GameData) (f : GameForm) (music : MusicStore)
    (cc : List (String × CharacterCache)) (c : String)
    (h : isCacheDataChanged prev f = false) :
    (gameEditPatches prev f music cc).filter (fun p => touchesChar p c)
      = ((removedCharacterIds prev f).filter (fun x => x == c)).map
          (fun x => Patch.charRemoveGame x f.id)
        ++ ((addedCharacterIds prev f).filter (fun x => x == c)).map
          (fun x => Patch.charAddGame x f.id (newCacheData f)) := by
  simp only [gameEditPatches, h, Bool.false_eq_true, if_false, List.nil_append,
    List.append_nil, List.filter_append, filter_map_comm]
  simp [touchesChar, filter_const_false]

/-- C8: in an edit that leaves the summary unchanged, each removed
character receives exactly the one patch `gameIds: arrayRemove` +
`cachedGames.<gid>: deleteField()`, each added character exactly the one
patch `gameIds: arrayUnion` + `cachedGames.<gid>: <current summary>`, and
every retained character document receives no patch at all. -/
theorem C8_summary_unchanged (prev : GameData) (f : GameForm) (music : MusicStore)
    (cc : List (String × CharacterCache))
    (h : isCacheDataChanged prev f = false)
    (hp : prev.characterIds.Nodup) (hn : f.characterIds.Nodup) :
    (∀ c ∈ removedCharacterIds prev f,
      (gameEditPatches prev f music cc).filter (fun p => touchesChar p c)
        = [Patch.charRemoveGame c f.id])
    ∧ (∀ c ∈ addedCharacterIds prev f,
      (gameEditPatches prev f music cc).filter (fun p => touchesChar p c)
        = [Patch.charAddGame c f.id (newCacheData f)])
    ∧ (∀ c ∈ retainedCharacterIds prev f,
      (gameEditPatches prev f music cc).filter (fun p => touchesChar p c) = []) := by
  refine ⟨?_, ?_, ?_⟩ <;> intro c hc <;>
    rw [filter_touchesChar_unchanged prev f music cc c h]
  · have hnotf : c ∉ f.characterIds := by
      have h2 := (List.mem_filter.mp hc).2
      intro hm
      rw [(scontains_iff _ _).mpr hm] at h2
      exact Bool.noConfusion h2
    have hAC : c ∉ addedCharacterIds prev f := fun hm => hnotf (List.mem_filter.mp hm).1
    have hnd : (removedCharacterIds prev f).Nodup := hp.filter _
    rw [filter_beq_self_of_nodup (removedCharacterIds prev f) hnd c hc,
      filter_beq_nil_of_not_mem _ c hAC]
    simp
  · have hnotp : c ∉ prev.characterIds := by
      have h2 := (List.mem_filter.mp hc).2
      intro hm
      rw [(scontains_iff _ _).mpr hm] at h2
      exact Bool.noConfusion h2
    have hRC : c ∉ removedCharacterIds prev f := fun hm => hnotp (List.mem_filter.mp hm).1
    have hnd : (addedCharacterIds prev f).Nodup := hn.filter _
    rw [filter_beq_nil_of_not_mem _ c hRC,
      filter_beq_self_of_nodup (addedCharacterIds prev f) hnd c hc]
    simp
  · have hinf : c ∈ f.characterIds := (List.mem_filter.mp hc).1
    have hinp : c ∈ prev.characterIds := (scontains_iff _ _).mp (List.mem_filter.mp hc).2
    have hRC : c ∉ removedCharacterIds prev f := by
      intro hm
      have h2 := (List.mem_filter.mp hm).2
      rw [(scontains_iff _ _).mpr hinf] at h2
      exact Bool.noConfusion h2
    have hAC : c ∉ addedCharacterIds prev f := by
      intro hm
      have h2 := (List.mem_filter.mp hm).2
      rw [(scontains_iff _ _).mpr hinp] at h2
      exact Bool.noConfusion h2
    rw [filter_beq_nil_of_not_mem _ c hRC, filter_beq_nil_of_not_mem _ c hAC]
    rfl

def prevC8 : GameData := { gameDataBase with characterIds := ["a", "b"] }

def formC8 : GameForm := { gameFormBase with characterIds := ["b", "c"] }

/-- C8 (witness): removing `a` (and adding `c`, retaining `b`) with the
summary unchanged: `a` gets exactly its one removal patch. -/
theorem C8_witness :
    (gameEditPatches prevC8 formC8 [] []).filter (fun p => touchesChar p "a")
      = [Patch.charRemoveGame "a" "g1"] :=
  (C8_summary_unchanged prevC8 formC8 [] [] rfl (by decide) (by decide)).1 "a" (by decide)

/-- C9: an edit changing only the category from "Ys Series" to
"Gagharv Trilogy" (no cover upload, characters unchanged) requests
invalidation for exactly `/games/<id>`, `/games` and `/gagharv-trilogy`
(not `/ys-series`), refreshes the games aggregate cache entry, writes the
new category into the embedded summary, and refreshes `cachedGames.<id>`
of every character of the game. -/
theorem C9_category_change (prev : GameData) (f : GameForm) (music : MusicStore)
    (cc : List (String × CharacterCache))
    (hcat : prev.category = "Ys Series") (hcat' : f.category = "Gagharv Trilogy")
    (hname : prev.name = f.name) (hrel : prev.releaseDate = f.releaseDate)
    (hcov : prev.hasCoverImage = f.hasCoverImage) (hcu : f.coverUploaded = false)
    (hchars : prev.characterIds = f.characterIds) :
    gameRevalidationPaths prev f = ["/games/" ++ f.id, "/games", "/gagharv-trilogy"]
    ∧ Patch.gamesCacheSet f.id (newCacheData f) ∈ gameEditPatches prev f music cc
    ∧ (newCacheData f).category = "Gagharv Trilogy"
    ∧ (∀ c ∈ prev.characterIds,
        Patch.charCacheRefresh c f.id (newCacheData f) ∈ gameEditPatches prev f music cc) := by
  have hch : isCacheDataChanged prev f = true := by
    have hbe : (prev.category != f.category) = true := by
      rw [hcat, hcat']
      decide
    unfold isCacheDataChanged
    rw [hbe]
    simp
  have hrem : removedCharacterIds prev f = [] := by
    unfold removedCharacterIds
    rw [hchars]
    rw [List.filter_eq_nil_iff]
    intro a ha
    rw [(scontains_iff _ _).mpr ha]
    simp
  have hadd : addedCharacterIds prev f = [] := by
    unfold addedCharacterIds
    rw [hchars]
    rw [List.filter_eq_nil_iff]
    intro a ha
    rw [(scontains_iff _ _).mpr ha]
    simp
  refine ⟨?_, ?_, hcat', ?_⟩
  · unfold gameRevalidationPaths
    rw [hrem, hadd, hch, hcu, hcat']
    simp
  · unfold gameEditPatches
    refine List.mem_append_left _ (List.mem_append_left _ (List.mem_append_left _
      (List.mem_append_left _ (List.mem_append_left _ (List.mem_append_left _ ?_)))))
    rw [if_pos hch]
    exact List.mem_append_right _ (List.mem_singleton.mpr rfl)
  · intro c hcmem
    unfold gameEditPatches
    refine List.mem_append_left _ (List.mem_append_left _ (List.mem_append_left _
      (List.mem_append_left _ (List.mem_append_left _ (List.mem_append_left _ ?_)))))
    rw [if_pos hch]
    exact List.mem_append_left _ (List.mem_map_of_mem _ hcmem)

def prevC9 : GameData := { gameDataBase with category := "Ys Series", characterIds := ["a"] }

def formC9 : GameForm :=
  { gameFormBase with category := "Gagharv Trilogy", characterIds := ["a"] }

/-- C9 (witness): the concrete Ys-Series → Gagharv-Trilogy edit. -/
theorem C9_witness :
    gameRevalidationPaths prevC9 formC9
      = ["/games/" ++ formC9.id, "/games", "/gagharv-trilogy"] :=
  (C9_category_change prevC9 formC9 [] [] rfl rfl rfl rfl rfl rfl rfl).1

end BeyondYs
